import Mathlib

/-!
Verification of the OssiaVoiceOffline capture / recognition / speaker-alignment
pipeline.

The development shallowly embeds the relevant JavaScript source:
* `src/repositories/TextToSpeechRepository.js` (streaming variant):
  `preprocessDiarization`, `findOptimalSpeaker`, `mergeSegments`,
  `mergeResults`, `generateReadableText`;
* `src/components/reusable/MicButton.vue` (streaming variant):
  `scriptProcessor.onaudioprocess`, the `'complete'` branch of
  `worker.onmessage`, `stopRecording`, `filterText`;
* `src/workers/whisper-worker.js`: the `generate` single-flight guard.

Conventions: JavaScript numbers are modelled as exact rationals `ℚ`
(all arithmetic in the embedded code stays well inside double precision),
wall-clock milliseconds as `ℤ`, and JS strings as Lean `String`s, with the
JS string methods used by the code (`trim`, global `replace`, whitespace
collapse) re-implemented over the character list so that they compute.
The JS field `end` is rendered as `stop` (`end` is a Lean keyword), and a
chunk's `timestamp[0]` / `timestamp[1]` as `start` / `stop`.
-/

/-- Model of JavaScript `String.prototype.trim`: strip leading and trailing
whitespace. -/
def jsTrim (s : String) : String :=
  String.mk (((s.data.dropWhile Char.isWhitespace).reverse.dropWhile
    Char.isWhitespace).reverse)

/-- Left-to-right scan removing every occurrence of `pat`, fuelled so the
recursion is structural. Models a global regex replace by the empty string. -/
def replaceAllAux (pat : List Char) : Nat → List Char → List Char
  | _, [] => []
  | 0, l => l
  | fuel + 1, c :: cs =>
    if pat.isPrefixOf (c :: cs) then replaceAllAux pat fuel (cs.drop (pat.length - 1))
    else c :: replaceAllAux pat fuel cs

/-- Model of JavaScript `text.replace(/pat/g, '')` for a literal pattern. -/
def jsRemoveAll (s pat : String) : String :=
  String.mk (replaceAllAux pat.data s.data.length s.data)

/-- One pass of whitespace-run collapsing; `inRun` records whether the
previous character was whitespace. -/
def collapseWsAux : Bool → List Char → List Char
  | _, [] => []
  | inRun, c :: cs =>
    if c.isWhitespace then
      if inRun then collapseWsAux true cs else ' ' :: collapseWsAux true cs
    else c :: collapseWsAux false cs

/-- Model of JavaScript `text.replace(/\s+/g, ' ')`: every maximal run of
whitespace becomes a single space. -/
def collapseWs (s : String) : String :=
  String.mk (collapseWsAux false s.data)

/-- MicButton.vue `filterText`: `if (!text) return '';
return text.replace(/\[BLANK_AUDIO\]/g, '').trim()`. -/
def filterText (text : String) : String :=
  if text = "" then "" else jsTrim (jsRemoveAll text "[BLANK_AUDIO]")

/-- Join a list of strings with single spaces (used to state text
preservation of the assembler). -/
def joinSpace : List String → String
  | [] => ""
  | [x] => x
  | x :: y :: xs => x ++ " " ++ joinSpace (y :: xs)

/-- A raw diarization segment as produced by the pyannote post-processing:
numeric speaker `id`, optional `label`, timestamps and confidence. -/
structure RawSegment where
  id : Int
  label : Option String
  start : ℚ
  stop : ℚ
  confidence : ℚ
deriving DecidableEq, Repr

/-- A diarization segment after `preprocessDiarization`, with the resolved
`label` string. -/
structure Segment where
  id : Int
  label : String
  start : ℚ
  stop : ℚ
  confidence : ℚ
deriving DecidableEq, Repr

/-- The label defaulting in `preprocessDiarization`:
`label: segment.label || Speaker_${segment.id}` (JS `||` also replaces the
empty string). -/
def resolveLabel (segment : RawSegment) : String :=
  match segment.label with
  | some l => if l = "" then "Speaker_" ++ toString segment.id else l
  | none => "Speaker_" ++ toString segment.id

/-- TextToSpeechRepository.js `preprocessDiarization`: keep segments with
duration `≥ 0.5` and confidence `≥ 0.8`, and resolve the label. -/
def preprocessDiarization (diarization : List RawSegment) : List Segment :=
  ((diarization.filter (fun segment => decide (segment.stop - segment.start ≥ 1/2))).filter
      (fun segment => decide (segment.confidence ≥ 4/5))).map
    (fun segment =>
      ⟨segment.id, resolveLabel segment, segment.start, segment.stop, segment.confidence⟩)

/-- The containment test of `findOptimalSpeaker` case 1:
`segment.start <= start && segment.end >= end`. -/
def containsChunk (start stop : ℚ) (segment : Segment) : Bool :=
  decide (segment.start ≤ start ∧ segment.stop ≥ stop)

/-- The overlap test of `findOptimalSpeaker` case 2: fractional overlap with
the chunk is at least the `overlapThreshold` of `0.35`. -/
def overlapsEnough (start stop : ℚ) (segment : Segment) : Bool :=
  decide (max 0 (min stop segment.stop - max start segment.start) / (stop - start) ≥ 35/100)

/-- JS `containingSegments.reduce((best, current) =>
current.confidence > best.confidence ? current : best)`: accumulator starts
at the first element and keeps the strictly larger confidence. -/
def reduceBest (best : Segment) : List Segment → Segment
  | [] => best
  | current :: rest =>
    reduceBest (if current.confidence > best.confidence then current else best) rest

/-- Distance between a segment's midpoint and the chunk midpoint, as in
`findOptimalSpeaker` case 3. -/
def midDistance (chunkMid : ℚ) (segment : Segment) : ℚ :=
  |(segment.start + segment.stop) / 2 - chunkMid|

/-- The `for (const segment of segments)` loop of `findOptimalSpeaker`
case 3. The accumulator is `some (bestMatch, minDistance)`; `none` models
`bestMatch = null, minDistance = Infinity`. -/
def midpointSearch (chunkMid : ℚ) : List Segment → Option (Segment × ℚ) → Option (Segment × ℚ)
  | [], best => best
  | segment :: rest, best =>
    match best with
    | none => midpointSearch chunkMid rest (some (segment, midDistance chunkMid segment))
    | some (b, minDistance) =>
      if midDistance chunkMid segment < minDistance then
        midpointSearch chunkMid rest (some (segment, midDistance chunkMid segment))
      else midpointSearch chunkMid rest (some (b, minDistance))

/-- TextToSpeechRepository.js `findOptimalSpeaker([start, end], segments)`:
containment, then overlap `≥ 0.35`, then closest midpoint, then the generic
`'Speaker'` tag (`bestMatch?.label || 'Speaker'`). -/
def findOptimalSpeaker (start stop : ℚ) (segments : List Segment) : String :=
  match segments.filter (containsChunk start stop) with
  | [c] => c.label
  | c₁ :: c₂ :: cs => (reduceBest c₁ (c₂ :: cs)).label
  | [] =>
    match segments.filter (overlapsEnough start stop) with
    | o :: os => (reduceBest o os).label
    | [] =>
      match midpointSearch ((start + stop) / 2) segments none with
      | some (b, _) => if b.label = "" then "Speaker" else b.label
      | none => "Speaker"

/-- A word-level transcript chunk from the final Whisper pass:
`{ text, timestamp: [start, end] }`. -/
structure TranscriptChunk where
  text : String
  start : ℚ
  stop : ℚ
deriving DecidableEq, Repr

/-- A merged output segment: `{ start, end, text, speaker }`. -/
structure MergedSegment where
  start : ℚ
  stop : ℚ
  text : String
  speaker : String
deriving DecidableEq, Repr

/-- TextToSpeechRepository.js `mergeSegments(acc, chunk, speaker)`: extend the
last segment when the speaker matches and the gap is `< 1.5`, else append a
fresh segment. The JS mutation of `last` becomes `dropLast ++ [updated]`. -/
def mergeSegments (acc : List MergedSegment) (chunk : TranscriptChunk)
    (speaker : String) : List MergedSegment :=
  let newSegment : MergedSegment := ⟨chunk.start, chunk.stop, jsTrim chunk.text, speaker⟩
  match acc.getLast? with
  | some last =>
    if last.speaker = speaker ∧ chunk.start - last.stop < 3/2 then
      acc.dropLast ++ [{ last with text := last.text ++ " " ++ newSegment.text,
                                   stop := newSegment.stop }]
    else acc ++ [newSegment]
  | none => acc ++ [newSegment]

/-- A Whisper transcription result: full text plus word-level chunks. -/
structure Transcription where
  text : String
  chunks : List TranscriptChunk
deriving DecidableEq, Repr

/-- TextToSpeechRepository.js `generateReadableText`. -/
def generateReadableText (segments : List MergedSegment) : String :=
  String.intercalate "\n\n" (segments.map (fun s => s.speaker ++ ": " ++ s.text))

/-- The result object of `mergeResults` (the raw-data echo field is omitted:
it is a verbatim copy of the two inputs). -/
structure TranscriptResult where
  formattedText : String
  segments : List MergedSegment
deriving DecidableEq, Repr

/-- TextToSpeechRepository.js `mergeResults(transcription, diarization)`:
filter the diarization, then reduce the chunks through `mergeSegments` with
the speaker chosen by `findOptimalSpeaker`. -/
def mergeResults (transcription : Transcription) (diarization : List RawSegment) :
    TranscriptResult :=
  let validSegments := preprocessDiarization diarization
  let formattedSegments := transcription.chunks.foldl
    (fun acc chunk =>
      mergeSegments acc chunk (findOptimalSpeaker chunk.start chunk.stop validSegments)) []
  { formattedText := generateReadableText formattedSegments
    segments := formattedSegments }

/-- Concrete diarization input for the containment tie-break example: two
segments covering `[0,3]` with confidences `0.9` and `0.95`. -/
def exampleContainment : List RawSegment :=
  [⟨1, some "A", 0, 3, 9/10⟩, ⟨2, some "B", 0, 3, 95/100⟩]

/-- Concrete diarization input for the overlap boundary example: a segment
`[1.85, 2.35]` (duration `0.5`, confidence `0.9`) overlapping the chunk
`[2,3]` by exactly `0.35`. -/
def exampleOverlap : List RawSegment :=
  [⟨1, some "A", 185/100, 235/100, 9/10⟩]

/-- Concrete diarization input for the midpoint fallback example: a single
far-away segment, no containment and overlap `0` with the chunk `[2,3]`. -/
def exampleMidpoint : List RawSegment :=
  [⟨1, some "A", 10, 11, 9/10⟩]

/-- Concrete transcription with two chunks `"a"` at `[0,1]` and `"b"` at
`[2.6, 3]`: same assigned speaker, gap `1.6 ≥ 1.5`. -/
def exampleTwoChunks : Transcription :=
  ⟨"a b", [⟨"a", 0, 1⟩, ⟨"b", 26/10, 3⟩]⟩

/-- MicButton.vue streaming-capture state touched by
`scriptProcessor.onaudioprocess`: the rolling dispatch buffer `audioBuffers`,
the last dispatch timestamp `lastSendTime` (ms), and the full-session audio
`completeAudioData`. -/
structure CaptureState where
  audioBuffers : List (List ℚ)
  lastSendTime : Int
  completeAudioData : List (List ℚ)
deriving DecidableEq, Repr

/-- State at `startRecording`:
`audioBuffers = []; lastSendTime = 0; completeAudioData = []`. -/
def initCapture : CaptureState := ⟨[], 0, []⟩

/-- MicButton.vue `const BUFFER_SEND_INTERVAL = 1000`. -/
def BUFFER_SEND_INTERVAL : Int := 1000

/-- MicButton.vue `scriptProcessor.onaudioprocess`: an all-zero chunk returns
immediately (`if (!chunk.some(s => s !== 0)) return`); otherwise the chunk is
pushed to the rolling buffer and to the session audio, and when at least
`BUFFER_SEND_INTERVAL` ms elapsed since `lastSendTime` the rolling buffer is
merged, cleared, and the merged block dispatched (returned as `some block`). -/
def onaudioprocess (now : Int) (chunk : List ℚ) (st : CaptureState) :
    CaptureState × Option (List ℚ) :=
  if chunk.all (fun s => decide (s = 0)) then (st, none)
  else
    let st1 : CaptureState :=
      { st with audioBuffers := st.audioBuffers ++ [chunk]
                completeAudioData := st.completeAudioData ++ [chunk] }
    if now - st.lastSendTime ≥ BUFFER_SEND_INTERVAL ∧ st1.audioBuffers ≠ [] then
      ({ st1 with lastSendTime := now, audioBuffers := [] }, some st1.audioBuffers.flatten)
    else (st1, none)

/-- whisper-worker.js state: the `processing` single-flight flag, plus ghost
bookkeeping of the observable dataflow — the block currently being decoded,
the blocks whose final result was posted, and the blocks discarded by the
`if (processing) return` guard of `generate`. -/
structure WorkerState where
  processing : Bool
  current : Option (List ℚ)
  decoded : List (List ℚ)
  dropped : List (List ℚ)
deriving DecidableEq, Repr

/-- Arrival of a `generate` message in whisper-worker.js: the audio is
discarded when `processing` is already set, otherwise the call starts and
sets `processing = true`. -/
def generateBegin (audio : List ℚ) (w : WorkerState) : WorkerState :=
  if w.processing then { w with dropped := w.dropped ++ [audio] }
  else { w with processing := true, current := some audio }

/-- End of a running `generate` call: the block-final result is posted and
`processing` is reset; a completion can only arise from a running call, so
the idle case is a no-op. -/
def generateFinish (w : WorkerState) : WorkerState :=
  match w.current with
  | some audio =>
    { w with processing := false, current := none, decoded := w.decoded ++ [audio] }
  | none => w

/-- Combined capture-side plus worker-side session state, with a ghost log of
every block dispatched via `worker.postMessage({type: 'generate', ...})`. -/
structure SysState where
  capture : CaptureState
  worker : WorkerState
  dispatched : List (List ℚ)
deriving DecidableEq, Repr

/-- Events of a recording session: an audio frame delivered at wall-clock
time `now`, or the completion of the worker's current `generate` call. -/
inductive Event where
  | frame (now : Int) (chunk : List ℚ)
  | complete
deriving DecidableEq, Repr

/-- One system step: a frame runs `onaudioprocess` and any dispatched block
is posted to the worker; a completion runs `generateFinish`. -/
def stepSys (st : SysState) : Event → SysState
  | Event.frame now chunk =>
    match onaudioprocess now chunk st.capture with
    | (c, some block) =>
      { capture := c, worker := generateBegin block st.worker
        dispatched := st.dispatched ++ [block] }
    | (c, none) => { st with capture := c }
  | Event.complete => { st with worker := generateFinish st.worker }

/-- Run a session from a state through a list of events. -/
def runSys (st : SysState) : List Event → SysState
  | [] => st
  | e :: es => runSys (stepSys st e) es

/-- Session start: empty capture state, idle worker, nothing dispatched. -/
def initSys : SysState := ⟨initCapture, ⟨false, none, [], []⟩, []⟩

/-- The live-transcript state touched by the `case 'complete'` branch of
`worker.onmessage` in MicButton.vue. -/
structure AccState where
  partialResult : String
  accumulatedText : String
  modelValue : String
deriving DecidableEq, Repr

/-- The `case 'complete'` handler of `worker.onmessage`: the cleaned
block-final text is computed but only logged; the cleaned PARTIAL text plus a
trailing space is appended to the accumulated transcript when non-empty; the
partial state is cleared; and the whitespace-normalised accumulated
transcript is republished as the model value. -/
def onCompleteMessage (output : List String) (st : AccState) : AccState :=
  let finalText := output.headD ""
  let _filteredFinal := filterText finalText
  let filteredPartial := filterText st.partialResult
  let accumulated :=
    if filteredPartial ≠ "" then st.accumulatedText ++ filteredPartial ++ " "
    else st.accumulatedText
  { partialResult := ""
    accumulatedText := accumulated
    modelValue := jsTrim (collapseWs accumulated) }

/-- Inputs of MicButton.vue `stopRecording` that determine its observable
behaviour: the session audio, the final-pass pipeline (`none` models the
`transcriber` reference being unavailable, `Except.error` an invocation that
throws), and the live accumulated transcript. -/
structure StopDeps where
  completeAudioData : List (List ℚ)
  transcriber : Option (List ℚ → Except String String)
  accumulatedText : String

/-- Observable outcome of `stopRecording`: the model value written (if any),
the `textAvailable` payload emitted (if any), the alerts surfaced via
`handleError`, and whether a `finalize` message was posted to the worker. -/
structure StopResult where
  modelValue : Option String
  emitted : Option (String × List ℚ)
  alerts : List String
  workerFinalize : Bool
deriving DecidableEq, Repr

/-- MicButton.vue `stopRecording` (audio-node teardown omitted): with session
audio present, the merged full audio is run through the pipeline when it is
available — on success the cleaned final text is published and emitted, and
on a throw `handleError` surfaces an alert and nothing is emitted (the real
`handleError` also re-invokes `stopRecording` and `cleanup`, which again emit
nothing); when the pipeline is unavailable, `finalize` is posted to the
worker and the cleaned accumulated transcript is emitted when non-empty. -/
def stopRecording (d : StopDeps) : StopResult :=
  if d.completeAudioData = [] then ⟨none, none, [], false⟩
  else
    let fullAudio := d.completeAudioData.flatten
    match d.transcriber with
    | some transcribe =>
      match transcribe fullAudio with
      | Except.ok resultText =>
        let finalText := filterText resultText
        ⟨some finalText, some (finalText, fullAudio), [], false⟩
      | Except.error msg =>
        ⟨none, none, ["Complete audio processing failed: " ++ msg], false⟩
    | none =>
      if d.accumulatedText ≠ "" then
        let cleanText := jsTrim (collapseWs d.accumulatedText)
        ⟨some cleanText, some (cleanText, fullAudio), [], true⟩
      else ⟨none, none, [], true⟩

/-- Concrete `stopRecording` input whose final-pass invocation throws. -/
def exampleStopFailure : StopDeps :=
  ⟨[[1]], some (fun _ => Except.error "boom"), "hello"⟩

/-- Concrete `stopRecording` input with the final-pass pipeline unavailable
and a non-empty live transcript. -/
def exampleStopNoPipeline : StopDeps :=
  ⟨[[1]], none, "hello"⟩

theorem reduceBest_spec (best : Segment) (l : List Segment) :
    reduceBest best l ∈ best :: l ∧
      ∀ s ∈ best :: l, s.confidence ≤ (reduceBest best l).confidence := by
  induction l generalizing best with
  | nil => simp [reduceBest]
  | cons current rest ih =>
    set w := if current.confidence > best.confidence then current else best with hw
    have hwmem : w = current ∨ w = best := by
      by_cases hc : current.confidence > best.confidence <;> simp [hw, hc]
    have hbw : best.confidence ≤ w.confidence := by
      by_cases hc : current.confidence > best.confidence <;> simp [hw, hc]
      exact le_of_lt hc
    have hcw : current.confidence ≤ w.confidence := by
      by_cases hc : current.confidence > best.confidence <;> simp [hw, hc]
      exact le_of_not_lt hc
    obtain ⟨hmem, hconf⟩ := ih w
    have hres : reduceBest best (current :: rest) = reduceBest w rest := by
      simp only [reduceBest, ← hw]
    refine ⟨?_, ?_⟩
    · rw [hres]
      rcases List.mem_cons.mp hmem with h | h
      · rcases hwmem with h' | h' <;> rw [h, h'] <;> simp
      · simp [h]
    · intro s hs
      rw [hres]
      have hwle := hconf w (List.mem_cons_self _ _)
      rcases List.mem_cons.mp hs with h | h
      · rw [h]; exact le_trans hbw hwle
      · rcases List.mem_cons.mp h with h' | h'
        · rw [h']; exact le_trans hcw hwle
        · exact hconf s (List.mem_cons_of_mem _ h')

theorem midpointSearch_spec (cm : ℚ) (l : List Segment) (b0 : Segment) :
    ∃ b, midpointSearch cm l (some (b0, midDistance cm b0)) = some (b, midDistance cm b) ∧
      b ∈ b0 :: l ∧ ∀ s ∈ b0 :: l, midDistance cm b ≤ midDistance cm s := by
  induction l generalizing b0 with
  | nil => exact ⟨b0, by simp [midpointSearch]⟩
  | cons segment rest ih =>
    by_cases hlt : midDistance cm segment < midDistance cm b0
    · obtain ⟨b, hrun, hmem, hmin⟩ := ih segment
      refine ⟨b, ?_, ?_, ?_⟩
      · simpa [midpointSearch, hlt] using hrun
      · rcases List.mem_cons.mp hmem with h | h <;> simp [h]
      · intro s hs
        rcases List.mem_cons.mp hs with h | h
        · rw [h]
          exact le_trans (le_of_lt (lt_of_le_of_lt (hmin segment (List.mem_cons_self _ _)) hlt)) le_rfl
        · exact hmin s h
    · obtain ⟨b, hrun, hmem, hmin⟩ := ih b0
      refine ⟨b, ?_, ?_, ?_⟩
      · simpa [midpointSearch, hlt] using hrun
      · rcases List.mem_cons.mp hmem with h | h <;> simp [h]
      · intro s hs
        rcases List.mem_cons.mp hs with h | h
        · rw [h]; exact hmin b0 (List.mem_cons_self _ _)
        · rcases List.mem_cons.mp h with h' | h'
          · rw [h']
            exact le_trans (hmin b0 (List.mem_cons_self _ _)) (le_of_not_lt hlt)
          · exact hmin s (List.mem_cons_of_mem _ h')

theorem preprocessDiarization_label_ne (raw : List RawSegment) :
    ∀ s ∈ preprocessDiarization raw, s.label ≠ "" := by
  intro s hs
  simp only [preprocessDiarization, List.mem_map] at hs
  obtain ⟨r, _, rfl⟩ := hs
  simp only [resolveLabel]
  have hid : ("Speaker_" ++ toString r.id) ≠ "" := by
    intro h
    have := congrArg String.data h
    simp [String.data_append] at this
  match hr : r.label with
  | none => exact hid
  | some l =>
    by_cases hl : l = "" <;> simp [hl, hid]

/-- C1: on diarization segments surviving the pre-alignment filter, if exactly
one segment contains the chunk then `findOptimalSpeaker` returns its label,
and if several contain it then it returns the label of a containing segment
of maximal confidence. -/
theorem findOptimalSpeaker_containment_rule (raw : List RawSegment) (start stop : ℚ) :
    (∀ c : Segment,
      (preprocessDiarization raw).filter (containsChunk start stop) = [c] →
      findOptimalSpeaker start stop (preprocessDiarization raw) = c.label) ∧
    (∀ (c₁ c₂ : Segment) (cs : List Segment),
      (preprocessDiarization raw).filter (containsChunk start stop) = c₁ :: c₂ :: cs →
      ∃ b ∈ c₁ :: c₂ :: cs,
        findOptimalSpeaker start stop (preprocessDiarization raw) = b.label ∧
        ∀ s ∈ c₁ :: c₂ :: cs, s.confidence ≤ b.confidence) := by
  constructor
  · intro c h
    unfold findOptimalSpeaker
    rw [h]
  · intro c₁ c₂ cs h
    obtain ⟨hmem, hconf⟩ := reduceBest_spec c₁ (c₂ :: cs)
    refine ⟨reduceBest c₁ (c₂ :: cs), hmem, ?_, hconf⟩
    unfold findOptimalSpeaker
    rw [h]

/-- Witness for C1 at the spec's tie-break example: two containing segments
with confidences `0.9` and `0.95`. -/
theorem findOptimalSpeaker_containment_rule_witness :
    ∃ b ∈ [(⟨1, "A", 0, 3, 9/10⟩ : Segment), ⟨2, "B", 0, 3, 95/100⟩],
      findOptimalSpeaker 1 2 (preprocessDiarization exampleContainment) = b.label ∧
      ∀ s ∈ [(⟨1, "A", 0, 3, 9/10⟩ : Segment), ⟨2, "B", 0, 3, 95/100⟩],
        s.confidence ≤ b.confidence :=
  (findOptimalSpeaker_containment_rule exampleContainment 1 2).2
    ⟨1, "A", 0, 3, 9/10⟩ ⟨2, "B", 0, 3, 95/100⟩ [] (by
      norm_num [exampleContainment, preprocessDiarization, resolveLabel, containsChunk,
        List.filter]
      decide)

/-- C2: when no filtered segment contains the chunk, the overlap tier keeps
exactly the segments whose fractional overlap
`max(0, min(chunk.end, seg.end) - max(chunk.start, seg.start)) / (chunk.end - chunk.start)`
is at least `0.35` (the boundary included), and when any segment is kept the
function returns the label of a kept segment of maximal confidence. -/
theorem findOptimalSpeaker_overlap_rule (raw : List RawSegment) (start stop : ℚ)
    (hc : (preprocessDiarization raw).filter (containsChunk start stop) = []) :
    (∀ s ∈ preprocessDiarization raw,
      s ∈ (preprocessDiarization raw).filter (overlapsEnough start stop) ↔
        35/100 ≤ max 0 (min stop s.stop - max start s.start) / (stop - start)) ∧
    (∀ (o : Segment) (os : List Segment),
      (preprocessDiarization raw).filter (overlapsEnough start stop) = o :: os →
      ∃ b ∈ o :: os,
        findOptimalSpeaker start stop (preprocessDiarization raw) = b.label ∧
        ∀ s ∈ o :: os, s.confidence ≤ b.confidence) := by
  constructor
  · intro s hs
    simp [List.mem_filter, hs, overlapsEnough, ge_iff_le]
  · intro o os h
    obtain ⟨hmem, hconf⟩ := reduceBest_spec o os
    refine ⟨reduceBest o os, hmem, ?_, hconf⟩
    unfold findOptimalSpeaker
    rw [hc, h]

/-- Witness for C2 at the spec's boundary example: chunk `[2,3]`, one
surviving segment `[1.85, 2.35]` overlapping by exactly `0.35`. -/
theorem findOptimalSpeaker_overlap_rule_witness :
    ((⟨1, "A", 185/100, 235/100, 9/10⟩ : Segment) ∈
        (preprocessDiarization exampleOverlap).filter (overlapsEnough 2 3) ↔
      35/100 ≤ max 0 (min 3 (235/100 : ℚ) - max 2 (185/100)) / ((3 : ℚ) - 2)) ∧
    (∃ b ∈ [(⟨1, "A", 185/100, 235/100, 9/10⟩ : Segment)],
      findOptimalSpeaker 2 3 (preprocessDiarization exampleOverlap) = b.label ∧
      ∀ s ∈ [(⟨1, "A", 185/100, 235/100, 9/10⟩ : Segment)], s.confidence ≤ b.confidence) := by
  have h := findOptimalSpeaker_overlap_rule exampleOverlap 2 3 (by
    norm_num [exampleOverlap, preprocessDiarization, resolveLabel, containsChunk, List.filter])
  exact ⟨h.1 _ (by
      norm_num [exampleOverlap, preprocessDiarization, resolveLabel, List.filter]
      decide),
    h.2 _ [] (by
      norm_num [exampleOverlap, preprocessDiarization, resolveLabel, overlapsEnough, List.filter]
      decide)⟩

/-- C3: when neither the containment nor the overlap tier applies, the
function returns the label of a segment whose midpoint is closest to the
chunk midpoint, and on an empty segment list it returns the generic
`"Speaker"` tag, so every chunk receives a label. -/
theorem findOptimalSpeaker_midpoint_fallback (raw : List RawSegment) (start stop : ℚ)
    (hc : (preprocessDiarization raw).filter (containsChunk start stop) = [])
    (ho : (preprocessDiarization raw).filter (overlapsEnough start stop) = []) :
    (preprocessDiarization raw = [] →
      findOptimalSpeaker start stop (preprocessDiarization raw) = "Speaker") ∧
    (∀ (s₀ : Segment) (ss : List Segment), preprocessDiarization raw = s₀ :: ss →
      ∃ b ∈ s₀ :: ss,
        findOptimalSpeaker start stop (preprocessDiarization raw) = b.label ∧
        ∀ s ∈ s₀ :: ss,
          midDistance ((start + stop) / 2) b ≤ midDistance ((start + stop) / 2) s) := by
  constructor
  · intro h
    unfold findOptimalSpeaker
    rw [h] at hc ho ⊢
    rw [hc, ho]
    simp [midpointSearch]
  · intro s₀ ss h
    obtain ⟨b, hrun, hmem, hmin⟩ := midpointSearch_spec ((start + stop) / 2) ss s₀
    have hlabel : b.label ≠ "" := by
      apply preprocessDiarization_label_ne raw
      rw [h]
      exact hmem
    refine ⟨b, hmem, ?_, hmin⟩
    unfold findOptimalSpeaker
    rw [hc, ho, h]
    have hstep : midpointSearch ((start + stop) / 2) (s₀ :: ss) none =
        midpointSearch ((start + stop) / 2) ss
          (some (s₀, midDistance ((start + stop) / 2) s₀)) := by
      simp [midpointSearch]
    rw [hstep, hrun]
    simp [hlabel]

/-- Witness for C3: chunk `[2,3]` against a single far-away surviving
segment `[10,11]`; no containment, no overlap, midpoint fallback picks it. -/
theorem findOptimalSpeaker_midpoint_fallback_witness :
    ∃ b ∈ [(⟨1, "A", 10, 11, 9/10⟩ : Segment)],
      findOptimalSpeaker 2 3 (preprocessDiarization exampleMidpoint) = b.label ∧
      ∀ s ∈ [(⟨1, "A", 10, 11, 9/10⟩ : Segment)],
        midDistance ((2 + 3) / 2) b ≤ midDistance ((2 + 3) / 2) s :=
  (findOptimalSpeaker_midpoint_fallback exampleMidpoint 2 3
    (by norm_num [exampleMidpoint, preprocessDiarization, resolveLabel, containsChunk,
      List.filter])
    (by norm_num [exampleMidpoint, preprocessDiarization, resolveLabel, overlapsEnough,
      List.filter])).2 _ []
    (by norm_num [exampleMidpoint, preprocessDiarization, resolveLabel, List.filter]
        decide)

/-- C4: a chunk is appended (space-joined, end extended) to the last segment
exactly when the speaker matches and the gap `chunk.start - last.end` is
strictly below `1.5`; otherwise a fresh segment starts. In particular a
same-speaker gap of `1.4` merges and a gap of `1.6` splits. -/
theorem mergeSegments_merge_rule (init : List MergedSegment) (l : MergedSegment)
    (chunk : TranscriptChunk) (speaker : String) :
    (mergeSegments (init ++ [l]) chunk speaker =
      if l.speaker = speaker ∧ chunk.start - l.stop < 3/2 then
        init ++ [{ l with text := l.text ++ " " ++ jsTrim chunk.text, stop := chunk.stop }]
      else (init ++ [l]) ++ [⟨chunk.start, chunk.stop, jsTrim chunk.text, speaker⟩]) ∧
    (mergeSegments [⟨0, 1, "a", "S"⟩] ⟨"b", 24/10, 3⟩ "S").length = 1 ∧
    (mergeSegments [⟨0, 1, "a", "S"⟩] ⟨"b", 26/10, 3⟩ "S").length = 2 := by
  refine ⟨?_, ?_, ?_⟩
  · simp only [mergeSegments, List.getLast?_concat, List.dropLast_concat]
  · have h14 : (24/10 : ℚ) - 1 < 3/2 := by norm_num
    simp [mergeSegments, h14]
  · have h16 : ¬ ((26/10 : ℚ) - 1 < 3/2) := by norm_num
    simp [mergeSegments, h16]

theorem joinSpace_cons_ne_nil (x : String) (rest : List String) (h : rest ≠ []) :
    joinSpace (x :: rest) = x ++ " " ++ joinSpace rest := by
  match rest with
  | [] => exact absurd rfl h
  | y :: ys => rfl

theorem joinSpace_split (a b : String) (ys : List String) :
    ∀ xs, joinSpace (xs ++ (a ++ " " ++ b) :: ys) = joinSpace (xs ++ a :: b :: ys) := by
  intro xs
  induction xs with
  | nil =>
    match ys with
    | [] => simp [joinSpace, String.append_assoc]
    | z :: zs =>
      rw [List.nil_append, List.nil_append,
        joinSpace_cons_ne_nil _ _ (by simp),
        joinSpace_cons_ne_nil a (b :: z :: zs) (by simp),
        joinSpace_cons_ne_nil b (z :: zs) (by simp)]
      simp [String.append_assoc]
  | cons x xs ih =>
    rw [List.cons_append, List.cons_append,
      joinSpace_cons_ne_nil _ _ (by simp),
      joinSpace_cons_ne_nil _ _ (by simp), ih]

theorem joinSpace_assemble (spk : TranscriptChunk → String) :
    ∀ (chunks : List TranscriptChunk) (acc : List MergedSegment),
      joinSpace ((chunks.foldl (fun a c => mergeSegments a c (spk c)) acc).map
          (fun s => s.text)) =
        joinSpace (acc.map (fun s => s.text) ++ chunks.map (fun c => jsTrim c.text)) := by
  intro chunks
  induction chunks with
  | nil => intro acc; simp
  | cons c cs ih =>
    intro acc
    rw [List.foldl_cons]
    rcases acc.eq_nil_or_concat with rfl | ⟨init, l, rfl⟩
    all_goals try simp only [List.concat_eq_append]
    · have hstep : mergeSegments [] c (spk c) = [⟨c.start, c.stop, jsTrim c.text, spk c⟩] := by
        simp [mergeSegments]
      rw [hstep, ih]
      simp
    · by_cases hcond : l.speaker = spk c ∧ c.start - l.stop < 3/2
      · have hstep : mergeSegments (init ++ [l]) c (spk c) =
            init ++ [{ l with text := l.text ++ " " ++ jsTrim c.text, stop := c.stop }] := by
          simp only [mergeSegments, List.getLast?_concat, List.dropLast_concat, if_pos hcond]
        rw [hstep, ih]
        simp only [List.map_append, List.map_cons, List.map_nil, List.append_assoc,
          List.cons_append, List.nil_append]
        exact joinSpace_split l.text (jsTrim c.text) (cs.map (fun c => jsTrim c.text))
          (init.map (fun s => s.text))
      · have hstep : mergeSegments (init ++ [l]) c (spk c) =
            (init ++ [l]) ++ [⟨c.start, c.stop, jsTrim c.text, spk c⟩] := by
          simp only [mergeSegments, List.getLast?_concat, List.dropLast_concat, if_neg hcond]
        rw [hstep, ih]
        simp [List.append_assoc]

/-- C10: the assembler preserves the transcript text exactly, for every chunk
sequence and every speaker assignment: the space-joined texts of the merged
segments equal the space-joined trimmed texts of the input chunks. -/
theorem mergeSegments_text_preservation (spk : TranscriptChunk → String)
    (chunks : List TranscriptChunk) :
    joinSpace ((chunks.foldl (fun acc c => mergeSegments acc c (spk c)) []).map
        (fun s => s.text)) =
      joinSpace (chunks.map (fun c => jsTrim c.text)) := by
  rw [joinSpace_assemble spk chunks []]
  simp

theorem assemble_chains (spk : TranscriptChunk → String) :
    ∀ (chunks : List TranscriptChunk) (acc : List MergedSegment),
      chunks.Pairwise (fun a b => a.start ≤ b.start) →
      acc.Chain' (fun a b => a.start ≤ b.start) →
      acc.Chain' (fun a b => a.speaker = b.speaker → 3/2 ≤ b.start - a.stop) →
      (∀ l, acc.getLast? = some l → ∀ c ∈ chunks, l.start ≤ c.start) →
      ((chunks.foldl (fun a c => mergeSegments a c (spk c)) acc).Chain'
          (fun a b => a.start ≤ b.start) ∧
        (chunks.foldl (fun a c => mergeSegments a c (spk c)) acc).Chain'
          (fun a b => a.speaker = b.speaker → 3/2 ≤ b.start - a.stop)) := by
  intro chunks
  induction chunks with
  | nil => intro acc _ h1 h2 _; exact ⟨h1, h2⟩
  | cons c cs ih =>
    intro acc hp h1 h2 hlast
    rw [List.foldl_cons]
    have hpcs : cs.Pairwise (fun a b => a.start ≤ b.start) := hp.of_cons
    have hpc : ∀ c' ∈ cs, c.start ≤ c'.start := (List.pairwise_cons.mp hp).1
    rcases acc.eq_nil_or_concat with rfl | ⟨init, l, rfl⟩
    · have hstep : mergeSegments [] c (spk c) = [⟨c.start, c.stop, jsTrim c.text, spk c⟩] := by
        simp [mergeSegments]
      rw [hstep]
      exact ih _ hpcs (List.chain'_singleton _) (List.chain'_singleton _)
        (by
          intro l hl c' hc'
          simp only [List.getLast?_singleton, Option.some.injEq] at hl
          rw [← hl]
          exact hpc c' hc')
    · simp only [List.concat_eq_append] at h1 h2 hlast ⊢
      by_cases hcond : l.speaker = spk c ∧ c.start - l.stop < 3/2
      · have hstep : mergeSegments (init ++ [l]) c (spk c) =
            init ++ [{ l with text := l.text ++ " " ++ jsTrim c.text, stop := c.stop }] := by
          simp only [mergeSegments, List.getLast?_concat, List.dropLast_concat, if_pos hcond]
        rw [hstep]
        obtain ⟨h1i, _, h1link⟩ := List.chain'_append.mp h1
        obtain ⟨h2i, _, h2link⟩ := List.chain'_append.mp h2
        refine ih _ hpcs ?_ ?_ ?_
        · exact List.chain'_append.mpr ⟨h1i, List.chain'_singleton _, by
            intro x hx y hy
            simp only [List.head?_cons, Option.mem_def, Option.some.injEq] at hy
            subst hy
            exact h1link x hx l (by simp)⟩
        · exact List.chain'_append.mpr ⟨h2i, List.chain'_singleton _, by
            intro x hx y hy
            simp only [List.head?_cons, Option.mem_def, Option.some.injEq] at hy
            subst hy
            exact h2link x hx l (by simp)⟩
        · intro l' hl' c' hc'
          rw [List.getLast?_concat] at hl'
          simp only [Option.some.injEq] at hl'
          rw [← hl']
          exact hlast l (List.getLast?_concat _) c' (List.mem_cons_of_mem _ hc')
      · have hstep : mergeSegments (init ++ [l]) c (spk c) =
            (init ++ [l]) ++ [⟨c.start, c.stop, jsTrim c.text, spk c⟩] := by
          simp only [mergeSegments, List.getLast?_concat, List.dropLast_concat, if_neg hcond]
        rw [hstep]
        have hgap : l.speaker = spk c → 3/2 ≤ c.start - l.stop := by
          intro hsp
          by_contra hlt
          exact hcond ⟨hsp, lt_of_not_le hlt⟩
        refine ih _ hpcs ?_ ?_ ?_
        · exact List.chain'_append.mpr ⟨h1, List.chain'_singleton _, by
            intro x hx y hy
            rw [List.getLast?_concat] at hx
            simp only [List.head?_cons, Option.mem_def, Option.some.injEq] at hx hy
            subst hx; subst hy
            exact hlast l (List.getLast?_concat _) c (List.mem_cons_self _ _)⟩
        · exact List.chain'_append.mpr ⟨h2, List.chain'_singleton _, by
            intro x hx y hy
            rw [List.getLast?_concat] at hx
            simp only [List.head?_cons, Option.mem_def, Option.some.injEq] at hx hy
            subst hx; subst hy
            exact hgap⟩
        · intro l' hl' c' hc'
          rw [List.getLast?_concat] at hl'
          simp only [Option.some.injEq] at hl'
          rw [← hl']
          exact hpc c' hc'

/-- C5 counterexample: two same-speaker chunks with a `1.6` second gap (and no
diarization segments, so both chunks get the generic `"Speaker"` label)
produce two consecutive merged segments with the SAME speaker label, refuting
the claim that consecutive MergedSegments never share a speaker label. -/
theorem consecutive_speaker_counterexample :
    ((mergeResults exampleTwoChunks []).segments.map (fun s => s.speaker) =
      ["Speaker", "Speaker"]) ∧
    ¬ (mergeResults exampleTwoChunks []).segments.Chain'
        (fun a b => a.speaker ≠ b.speaker) := by
  have hseg : (mergeResults exampleTwoChunks []).segments =
      [⟨0, 1, jsTrim "a", "Speaker"⟩, ⟨26/10, 3, jsTrim "b", "Speaker"⟩] := by
    norm_num [mergeResults, exampleTwoChunks, preprocessDiarization, findOptimalSpeaker,
      mergeSegments, midpointSearch, List.filter]
  rw [hseg]
  constructor
  · simp
  · simp [List.chain'_cons]

/-- C5 (amended): for chunks processed in start-time order, the merged
segments appear in chronological start order, and two consecutive segments
can share a speaker label only across a gap of at least `1.5` seconds (for
smaller same-speaker gaps the chunks are merged into one segment). -/
theorem mergeResults_segment_order (t : Transcription) (d : List RawSegment)
    (hsorted : t.chunks.Chain' (fun a b => a.start ≤ b.start)) :
    (mergeResults t d).segments.Chain' (fun a b => a.start ≤ b.start) ∧
    (mergeResults t d).segments.Chain'
      (fun a b => a.speaker = b.speaker → 3/2 ≤ b.start - a.stop) := by
  haveI : IsTrans TranscriptChunk (fun a b => a.start ≤ b.start) :=
    ⟨fun _ _ _ hab hbc => le_trans hab hbc⟩
  have hp : t.chunks.Pairwise (fun a b => a.start ≤ b.start) :=
    List.chain'_iff_pairwise.mp hsorted
  have h := assemble_chains
    (fun c => findOptimalSpeaker c.start c.stop (preprocessDiarization d))
    t.chunks [] hp (by simp) (by simp) (by simp)
  simpa [mergeResults] using h

/-- Witness for the amended C5 at the two-chunk example. -/
theorem mergeResults_segment_order_witness :
    (mergeResults exampleTwoChunks []).segments.Chain' (fun a b => a.start ≤ b.start) ∧
    (mergeResults exampleTwoChunks []).segments.Chain'
      (fun a b => a.speaker = b.speaker → 3/2 ≤ b.start - a.stop) :=
  mergeResults_segment_order exampleTwoChunks [] (by
    norm_num [exampleTwoChunks, List.chain'_cons])

theorem stepSys_partition (st : SysState) (e : Event)
    (h : st.dispatched.length =
      st.worker.decoded.length + st.worker.dropped.length +
        (if st.worker.processing then 1 else 0))
    (h2 : st.worker.processing = st.worker.current.isSome) :
    (stepSys st e).dispatched.length =
      (stepSys st e).worker.decoded.length + (stepSys st e).worker.dropped.length +
        (if (stepSys st e).worker.processing then 1 else 0) ∧
    (stepSys st e).worker.processing = (stepSys st e).worker.current.isSome := by
  cases e with
  | frame now chunk =>
    rcases hop : onaudioprocess now chunk st.capture with ⟨c, dispatch⟩
    cases dispatch with
    | none =>
      simp only [stepSys, hop]
      exact ⟨h, h2⟩
    | some block =>
      simp only [stepSys, hop]
      by_cases hw : st.worker.processing
      · rw [if_pos hw] at h
        refine ⟨?_, ?_⟩
        · simp [generateBegin, hw]
          omega
        · simp only [generateBegin, if_pos hw]
          exact h2
      · rw [if_neg hw] at h
        refine ⟨?_, ?_⟩
        · simp [generateBegin, hw]
          omega
        · simp [generateBegin, hw]
  | complete =>
    cases hc : st.worker.current with
    | none =>
      have hgf : generateFinish st.worker = st.worker := by
        simp [generateFinish, hc]
      simp only [stepSys, hgf]
      exact ⟨h, h2⟩
    | some audio =>
      have hw : st.worker.processing = true := by rw [h2, hc]; rfl
      rw [if_pos hw] at h
      refine ⟨?_, ?_⟩
      · simp [stepSys, generateFinish, hc]
        omega
      · simp [stepSys, generateFinish, hc]

theorem runSys_partition (evs : List Event) : ∀ st : SysState,
    (st.dispatched.length =
        st.worker.decoded.length + st.worker.dropped.length +
          (if st.worker.processing then 1 else 0) ∧
      st.worker.processing = st.worker.current.isSome) →
    ((runSys st evs).dispatched.length =
        (runSys st evs).worker.decoded.length + (runSys st evs).worker.dropped.length +
          (if (runSys st evs).worker.processing then 1 else 0) ∧
      (runSys st evs).worker.processing = (runSys st evs).worker.current.isSome) := by
  induction evs with
  | nil => intro st h; exact h
  | cons e es ih =>
    intro st h
    exact ih (stepSys st e) (stepSys_partition st e h.1 h.2)

/-- C6 (amended): the worker's `processing` flag enforces single-flight
EXECUTION — after any event sequence every dispatched block is accounted for
exactly once as decoded, currently being decoded (at most one), or dropped by
the worker's `if (processing) return` guard; the main thread, however,
dispatches on its time gate regardless of outstanding calls, and a block
dispatched while a call is outstanding is dropped, not queued (see the
counterexample). -/
theorem dispatch_partition_invariant (evs : List Event) :
    (runSys initSys evs).dispatched.length =
      (runSys initSys evs).worker.decoded.length +
        (runSys initSys evs).worker.dropped.length +
        (if (runSys initSys evs).worker.processing then 1 else 0) ∧
    (runSys initSys evs).worker.processing =
      (runSys initSys evs).worker.current.isSome := by
  exact runSys_partition evs initSys (by simp [initSys])

/-- C6 counterexample: at `t = 5000` the block `[1]` is dispatched and starts
decoding; at `t = 6500`, while that call is still outstanding, the time gate
dispatches `[2]` anyway and the worker's guard discards it, so the dispatched
block `[2]` is never decoded — refuting both "no new dispatch is issued while
a previous dispatch is outstanding" and "no dispatched audio block goes
undecoded". -/
theorem busy_dispatch_dropped_counterexample :
    (runSys initSys [Event.frame 5000 [1], Event.frame 6500 [2],
        Event.complete]).dispatched = [[1], [2]] ∧
    (runSys initSys [Event.frame 5000 [1], Event.frame 6500 [2],
        Event.complete]).worker.decoded = [[1]] ∧
    (runSys initSys [Event.frame 5000 [1], Event.frame 6500 [2],
        Event.complete]).worker.dropped = [[2]] ∧
    [2] ∉ (runSys initSys [Event.frame 5000 [1], Event.frame 6500 [2],
        Event.complete]).worker.decoded := by
  have h1 : onaudioprocess 5000 [1] initCapture =
      (⟨[], 5000, [[1]]⟩, some [1]) := by
    norm_num [onaudioprocess, initCapture, BUFFER_SEND_INTERVAL]
  have h2 : onaudioprocess 6500 [2] (⟨[], 5000, [[1]]⟩ : CaptureState) =
      (⟨[], 6500, [[1], [2]]⟩, some [2]) := by
    norm_num [onaudioprocess, BUFFER_SEND_INTERVAL]
  have hrun : runSys initSys [Event.frame 5000 [1], Event.frame 6500 [2], Event.complete] =
      ⟨⟨[], 6500, [[1], [2]]⟩, ⟨false, none, [[1]], [[2]]⟩, [[1], [2]]⟩ := by
    simp [runSys, stepSys, h1, h2, initSys, generateBegin, generateFinish]
  rw [hrun]
  norm_num

/-- C7 counterexample: an all-zero frame is skipped before any bookkeeping —
`onaudioprocess` leaves the state unchanged, so the frame is NOT appended to
the full-session audio, refuting "still appends the frame to the full session
audio sequence". -/
theorem silent_frame_counterexample :
    (onaudioprocess 5000 [0, 0] initCapture).1.completeAudioData = [] ∧
    [0, 0] ∉ (onaudioprocess 5000 [0, 0] initCapture).1.completeAudioData ∧
    (onaudioprocess 5000 [0, 0] initCapture).2 = none := by
  have h : onaudioprocess 5000 [0, 0] initCapture = (initCapture, none) := by
    norm_num [onaudioprocess, initCapture]
  rw [h]
  simp [initCapture]

/-- C7 (amended): an entirely silent (all-zero) frame is skipped for BOTH
purposes — it is neither dispatched nor stored in the session audio, and the
capture state is unchanged; a non-silent frame is appended to the session
audio and is never lost to dispatch: it either stays in the rolling buffer or
is part of the block dispatched in the same call. -/
theorem silent_frame_skipped (now : Int) (chunk : List ℚ) (st : CaptureState) :
    (chunk.all (fun s => decide (s = 0)) = true →
      onaudioprocess now chunk st = (st, none)) ∧
    (chunk.all (fun s => decide (s = 0)) = false →
      (onaudioprocess now chunk st).1.completeAudioData =
        st.completeAudioData ++ [chunk] ∧
      ((onaudioprocess now chunk st).1.audioBuffers = st.audioBuffers ++ [chunk] ∧
          (onaudioprocess now chunk st).2 = none ∨
        (onaudioprocess now chunk st).1.audioBuffers = [] ∧
          (onaudioprocess now chunk st).2 = some (st.audioBuffers ++ [chunk]).flatten)) := by
  constructor
  · intro h
    simp [onaudioprocess, h]
  · intro h
    by_cases hcond : BUFFER_SEND_INTERVAL ≤ now - st.lastSendTime
    · refine ⟨?_, Or.inr ⟨?_, ?_⟩⟩ <;> simp [onaudioprocess, h, hcond]
    · refine ⟨?_, Or.inl ⟨?_, ?_⟩⟩ <;> simp [onaudioprocess, h, hcond]

/-- Witness for the amended C7: a silent frame `[0]` leaves the initial state
untouched; a non-silent frame `[1]` is stored in the session audio. -/
theorem silent_frame_skipped_witness :
    onaudioprocess 5000 [0] initCapture = (initCapture, none) ∧
    (onaudioprocess 5000 [1] initCapture).1.completeAudioData = [[1]] := by
  constructor
  · exact (silent_frame_skipped 5000 [0] initCapture).1 (by norm_num)
  · have h := ((silent_frame_skipped 5000 [1] initCapture).2 (by norm_num)).1
    simpa [initCapture] using h

/-- C8 counterexample: with session audio present, a live transcript
`"hello"` available, and a final pass that throws, `stopRecording` emits
nothing at all — in particular not the accumulated-transcript fallback — and
only surfaces an alert, refuting "the emitted result falls back to the live
accumulated transcript". -/
theorem finalpass_failure_counterexample :
    (stopRecording exampleStopFailure).emitted = none ∧
    (stopRecording exampleStopFailure).emitted ≠
      some (jsTrim (collapseWs exampleStopFailure.accumulatedText),
        exampleStopFailure.completeAudioData.flatten) ∧
    (stopRecording exampleStopFailure).alerts ≠ [] := by
  have h : stopRecording exampleStopFailure =
      ⟨none, none, ["Complete audio processing failed: boom"], false⟩ := by
    norm_num [stopRecording, exampleStopFailure]
    decide
  rw [h]
  simp

/-- C8 (amended): when the final high-accuracy pass over the session audio
throws, the failure is surfaced as a non-fatal alert and NO result is emitted
(the model value is also left untouched); the fallback that emits the cleaned
live accumulated transcript happens only in the other degraded path, when the
final-pass pipeline itself is unavailable and the accumulated transcript is
non-empty. -/
theorem stopRecording_failure_behavior (d : StopDeps)
    (t : List ℚ → Except String String) (msg : String)
    (hne : d.completeAudioData ≠ [])
    (ht : d.transcriber = some t)
    (hfail : t d.completeAudioData.flatten = Except.error msg) :
    (stopRecording d).emitted = none ∧
    (stopRecording d).modelValue = none ∧
    (stopRecording d).alerts = ["Complete audio processing failed: " ++ msg] ∧
    (∀ d' : StopDeps, d'.completeAudioData ≠ [] → d'.transcriber = none →
      d'.accumulatedText ≠ "" →
      (stopRecording d').emitted =
        some (jsTrim (collapseWs d'.accumulatedText), d'.completeAudioData.flatten)) := by
  refine ⟨?_, ?_, ?_, ?_⟩
  · simp [stopRecording, hne, ht, hfail]
  · simp [stopRecording, hne, ht, hfail]
  · simp [stopRecording, hne, ht, hfail]
  · intro d' hne' ht' hacc'
    simp [stopRecording, hne', ht', hacc']

/-- Witness for the amended C8: the failing final pass emits nothing, while
the pipeline-unavailable path emits the cleaned accumulated transcript. -/
theorem stopRecording_failure_behavior_witness :
    (stopRecording exampleStopFailure).emitted = none ∧
    (stopRecording exampleStopNoPipeline).emitted =
      some (jsTrim (collapseWs "hello"), [1]) := by
  have h := stopRecording_failure_behavior exampleStopFailure
    (fun _ => Except.error "boom") "boom" (by simp [exampleStopFailure]) rfl rfl
  refine ⟨h.1, ?_⟩
  have h4 := h.2.2.2 exampleStopNoPipeline (by simp [exampleStopNoPipeline]) rfl
    (by simp [exampleStopNoPipeline])
  simpa [exampleStopNoPipeline] using h4

/-- C9 counterexample: on a completion event carrying block-final text
`"hello world"` while the pending partial text is `"hi"`, the handler appends
the cleaned PARTIAL text — the accumulated transcript becomes `"hi "`, not
the block-final `"hello world "` the claim requires. -/
theorem complete_appends_partial_counterexample :
    (onCompleteMessage ["hello world"] ⟨"hi", "", ""⟩).accumulatedText = "hi " ∧
    (onCompleteMessage ["hello world"] ⟨"hi", "", ""⟩).accumulatedText ≠
      filterText "hello world" ++ " " := by
  constructor <;> decide

/-- C9 (amended): the `'complete'` handler ignores the block-final text in
the event (any two outputs yield identical states); it appends the cleaned
pending PARTIAL text plus a trailing space when that is non-empty, clears the
partial state, and republishes the whitespace-normalised accumulated
transcript as the live model value. -/
theorem onComplete_state_update :
    (∀ (out1 out2 : List String) (st : AccState),
      onCompleteMessage out1 st = onCompleteMessage out2 st) ∧
    (∀ (output : List String) (st : AccState),
      (onCompleteMessage output st).partialResult = "" ∧
      (onCompleteMessage output st).accumulatedText =
        (if filterText st.partialResult ≠ "" then
          st.accumulatedText ++ filterText st.partialResult ++ " "
        else st.accumulatedText) ∧
      (onCompleteMessage output st).modelValue =
        jsTrim (collapseWs (onCompleteMessage output st).accumulatedText)) := by
  refine ⟨?_, ?_⟩
  · intro out1 out2 st
    simp [onCompleteMessage]
  · intro output st
    refine ⟨rfl, rfl, rfl⟩
